import Mathlib

/-!
Verification of the p2pquic-go traversal engine and rendezvous registry.

The Go source is shallowly embedded: pure fragments become Lean functions,
the stateful registry becomes explicit state passing over an association
list modelling the Go map (keys unique by construction: an assignment
first erases the old binding), wall-clock time is an explicit `now : Nat`
parameter (seconds), and the operating system's resolver / dialer /
interface enumeration are oracle parameters.  Machine integers stay in
`Nat`/`Int`; the Go expression `now.Sub(ts) > peerTTL` on non-negative
durations is `peerTTL < now - ts` with truncated subtraction, which agrees
with Go also when `ts` is in the future (both sides then read "not
expired").
-/

namespace P2PQuic

/-- `Candidate` from pkg/p2pquic/types.go: a NAT traversal (IP, port) pair. -/
structure Candidate where
  IP : String
  Port : Int
deriving DecidableEq, Repr

/-- `PeerInfo` from pkg/p2pquic/types.go: registry record for one peer. -/
structure PeerInfo where
  ID : String
  Candidates : List Candidate
  Timestamp : Nat
deriving DecidableEq, Repr

/-- `peerTTL = 30 * time.Second` from the signaling server, in seconds. -/
def peerTTL : Nat := 30

/-- The signaling `Server` state: the Go map `peers map[string]*PeerInfo`,
modelled as an association list in which a map assignment erases the old
binding before consing the new one. -/
structure Server where
  peers : List (String × PeerInfo)
deriving DecidableEq, Repr

/-- Go map lookup `s.peers[peerID]`. -/
def lookupPeer : List (String × PeerInfo) → String → Option PeerInfo
  | [], _ => none
  | kv :: rest, id => if kv.1 = id then some kv.2 else lookupPeer rest id

/-- Go map `delete(s.peers, peerID)` (also the erase half of assignment). -/
def eraseKey (l : List (String × PeerInfo)) (id : String) : List (String × PeerInfo) :=
  l.filter (fun kv => kv.1 ≠ id)

/-- `Server.Register`: builds a fresh `PeerInfo` with `Timestamp = now` and
assigns it to key `peerID`, replacing any previous binding. -/
def Server.Register (s : Server) (peerID : String) (candidates : List Candidate)
    (now : Nat) : Server :=
  { peers := (peerID, { ID := peerID, Candidates := candidates, Timestamp := now })
      :: eraseKey s.peers peerID }

/-- `Server.GetPeer` (TTL variant): not-found when absent, and the inline
age check `time.Since(peer.Timestamp) > peerTTL` hides expired entries. -/
def Server.GetPeer (s : Server) (peerID : String) (now : Nat) : Option PeerInfo :=
  match lookupPeer s.peers peerID with
  | none => none
  | some peer => if peerTTL < now - peer.Timestamp then none else some peer

/-- `Server.GetAllPeers` (TTL variant): keeps entries with
`now.Sub(peer.Timestamp) <= peerTTL`. -/
def Server.GetAllPeers (s : Server) (now : Nat) : List PeerInfo :=
  (s.peers.filter (fun kv => now - kv.2.Timestamp ≤ peerTTL)).map (fun kv => kv.2)

/-- `Server.PeerCount` (TTL variant): counts entries with
`now.Sub(peer.Timestamp) <= peerTTL`. -/
def Server.PeerCount (s : Server) (now : Nat) : Nat :=
  (s.peers.filter (fun kv => now - kv.2.Timestamp ≤ peerTTL)).length

/-- `Server.RemovePeer`: `delete(s.peers, peerID)`. -/
def Server.RemovePeer (s : Server) (peerID : String) : Server :=
  { peers := eraseKey s.peers peerID }

/-- `Server.cleanupExpired`: the sweeper deletes entries whose age exceeds
the TTL. -/
def Server.cleanupExpired (s : Server) (now : Nat) : Server :=
  { peers := s.peers.filter (fun kv => ¬ peerTTL < now - kv.2.Timestamp) }

/-- Number of bindings a key has in the map model. -/
def countKey (l : List (String × PeerInfo)) (id : String) : Nat :=
  (l.filter (fun kv => kv.1 = id)).length

theorem lookupPeer_cons_self (id : String) (p : PeerInfo)
    (rest : List (String × PeerInfo)) :
    lookupPeer ((id, p) :: rest) id = some p := by
  simp [lookupPeer]

theorem countKey_eraseKey (l : List (String × PeerInfo)) (id : String) :
    countKey (eraseKey l id) id = 0 := by
  induction l with
  | nil => rfl
  | cons kv rest ih =>
      by_cases h : kv.1 = id
      · simp only [countKey, eraseKey, List.filter_cons] at ih ⊢
        simp [h, ih]
      · simp only [countKey, eraseKey, List.filter_cons] at ih ⊢
        simp [h, ih]

/-- C1: the registry never makes an expired entry observable.  `GetPeer`
returns not-found when the binding is absent or its age exceeds the TTL,
every result it does return is within the TTL, `GetAllPeers` returns only
entries whose age is within the TTL, and `PeerCount` counts exactly those
entries. -/
theorem registry_hides_expired (s : Server) (id : String) (now : Nat) :
    (lookupPeer s.peers id = none → s.GetPeer id now = none) ∧
    (∀ p, lookupPeer s.peers id = some p → peerTTL < now - p.Timestamp →
      s.GetPeer id now = none) ∧
    (∀ p, s.GetPeer id now = some p → now - p.Timestamp ≤ peerTTL) ∧
    (∀ p ∈ s.GetAllPeers now, now - p.Timestamp ≤ peerTTL) ∧
    s.PeerCount now = (s.GetAllPeers now).length := by
  refine ⟨?_, ?_, ?_, ?_, ?_⟩
  · intro h
    simp [Server.GetPeer, h]
  · intro p hl hage
    simp [Server.GetPeer, hl, hage]
  · intro p hp
    unfold Server.GetPeer at hp
    split at hp
    · exact absurd hp (by simp)
    · split at hp
      · exact absurd hp (by simp)
      · cases hp
        omega
  · intro p hp
    unfold Server.GetAllPeers at hp
    obtain ⟨kv, hkv, hmap⟩ := List.mem_map.mp hp
    have := List.of_mem_filter hkv
    simp only [decide_eq_true_eq] at this
    rw [← hmap]
    exact this
  · simp [Server.PeerCount, Server.GetAllPeers]

/-- C1 witness: a peer registered at time 0 is invisible at time 31. -/
theorem registry_hides_expired_witness :
    Server.GetPeer ⟨[("A", ⟨"A", [], 0⟩)]⟩ "A" 31 = none :=
  (registry_hides_expired ⟨[("A", ⟨"A", [], 0⟩)]⟩ "A" 31).2.1
    ⟨"A", [], 0⟩ rfl (by decide)

/-- C2: `Register id C` followed by `GetPeer id` before expiry yields a
`PeerInfo` carrying exactly the list `C`; a later `Register` for the same
id fully replaces the earlier record (the list read back is the last one
submitted, no merge), and after a `Register` exactly one binding exists
for the id. -/
theorem register_get_roundtrip (s : Server) (id : String)
    (C C' : List Candidate) (now now' t : Nat) (h : t - now ≤ peerTTL) :
    (s.Register id C now).GetPeer id t
        = some { ID := id, Candidates := C, Timestamp := now } ∧
    ((s.Register id C' now').Register id C now).GetPeer id t
        = some { ID := id, Candidates := C, Timestamp := now } ∧
    countKey (s.Register id C now).peers id = 1 := by
  have key : ∀ s' : Server, (s'.Register id C now).GetPeer id t
      = some { ID := id, Candidates := C, Timestamp := now } := by
    intro s'
    unfold Server.Register Server.GetPeer
    rw [lookupPeer_cons_self]
    dsimp only
    rw [if_neg (show ¬ peerTTL < t - now by omega)]
  refine ⟨key s, key _, ?_⟩
  have h0 := countKey_eraseKey s.peers id
  unfold Server.Register
  unfold countKey at h0 ⊢
  rw [List.filter_cons]
  simp [h0]

/-- C2 witness: spec scenario 2 — register "A" with one candidate, read
it straight back. -/
theorem register_get_roundtrip_witness :
    (Server.Register ⟨[]⟩ "A" [⟨"10.0.0.1", 9000⟩] 0).GetPeer "A" 0 = some ⟨"A", [⟨"10.0.0.1", 9000⟩], 0⟩ :=
  (register_get_roundtrip ⟨[]⟩ "A" [⟨"10.0.0.1", 9000⟩] [] 0 0 0 (by decide)).1

/-! ## STUN reflexive probe (performSTUNDiscovery, pkg/p2pquic/p2pquic.go)

The received datagram is modelled as its byte content `buf : Nat → Nat`
(index to byte value) together with the number `n` of bytes read; the Go
receive buffer is 1024 bytes long, so any read at an index at or above
1024 is out of range.  The scan loop `for i := 20; i < n-8; i++` runs
`bound - i` times from `i = 20` with `bound = n - 8`; it is embedded
structurally on that count. -/

/-- Go `net.IPv4(a,b,c,d).String()`: dotted-decimal text of an IPv4. -/
def ipv4String (a b c d : Nat) : String :=
  toString a ++ "." ++ toString b ++ "." ++ toString c ++ "." ++ toString d

/-- The scan body: at each index check for the XOR-MAPPED-ADDRESS
attribute header bytes `0x00 0x20`; the fuel is the number of remaining
loop iterations. -/
def scanLoop (buf : Nat → Nat) : Nat → Nat → Option Nat
  | 0, _ => none
  | fuel + 1, i =>
      if buf i = 0x00 ∧ buf (i + 1) = 0x20 then some i
      else scanLoop buf fuel (i + 1)

/-- `for i := 20; i < bound; i++ { if buf[i]==0x00 && buf[i+1]==0x20 ... }`:
index of the first attribute-header match, if any. -/
def scanXMappedAddr (buf : Nat → Nat) (bound i : Nat) : Option Nat :=
  scanLoop buf (bound - i) i

/-- The parse half of `performSTUNDiscovery`: on a reply of `n` bytes,
when `n > 20`, scan indices `20 ≤ i < n-8` for the attribute header; on a
match, XOR the four bytes at `i+8 .. i+11` with the magic cookie
`0x21 0x12 0xA4 0x42` and return that IP with the caller-specified local
port (the reflected port bytes at `i+6 .. i+7` are commented out in the
source and never read). -/
def performSTUNParse (buf : Nat → Nat) (n : Nat) (localPort : Int) :
    Option Candidate :=
  if 20 < n then
    match scanXMappedAddr buf (n - 8) 20 with
    | some i =>
        some { IP := ipv4String (buf (i + 8) ^^^ 0x21) (buf (i + 9) ^^^ 0x12)
                 (buf (i + 10) ^^^ 0xa4) (buf (i + 11) ^^^ 0x42),
               Port := localPort }
    | none => none
  else none

/-- Byte `i` of the 20-byte binding-success header of a synthetic
response: type `0x0101`, length 12, magic cookie, zero transaction id. -/
def bindingHeaderByte (i : Nat) : Nat :=
  if i = 0 then 0x01 else if i = 1 then 0x01
  else if i = 2 then 0x00 else if i = 3 then 0x0c
  else if i = 4 then 0x21 else if i = 5 then 0x12
  else if i = 6 then 0xa4 else if i = 7 then 0x42
  else 0x00

/-- A synthetic well-formed 32-byte binding response whose single
XOR-MAPPED-ADDRESS attribute carries the address bytes `a b c d` XORed
with the magic cookie, and reflected-port bytes `pHi pLo`. -/
def mkBindingResponse (a b c d pHi pLo : Nat) : Nat → Nat := fun i =>
  if i = 20 then 0x00 else if i = 21 then 0x20
  else if i = 22 then 0x00 else if i = 23 then 0x08
  else if i = 24 then 0x00 else if i = 25 then 0x01
  else if i = 26 then pHi else if i = 27 then pLo
  else if i = 28 then a ^^^ 0x21 else if i = 29 then b ^^^ 0x12
  else if i = 30 then c ^^^ 0xa4 else if i = 31 then d ^^^ 0x42
  else bindingHeaderByte i

theorem xor_mask_cancel (x k : Nat) : x ^^^ k ^^^ k = x := by
  rw [Nat.xor_assoc, Nat.xor_self, Nat.xor_zero]

/-- C3: parsing a well-formed binding response built from IPv4 address
`a.b.c.d` XOR the magic cookie yields a Candidate whose IP is the dotted
text of that address and whose port is the caller-specified local port,
whatever port bytes the response carries. -/
theorem stun_parse_roundtrip (a b c d pHi pLo : Nat) (p : Int)
    (ha : a < 256) (hb : b < 256) (hc : c < 256) (hd : d < 256) :
    performSTUNParse (mkBindingResponse a b c d pHi pLo) 32 p
      = some { IP := ipv4String a b c d, Port := p } := by
  have hscan : scanXMappedAddr (mkBindingResponse a b c d pHi pLo) (32 - 8) 20
      = some 20 := by
    simp [scanXMappedAddr, scanLoop, mkBindingResponse]
  unfold performSTUNParse
  rw [if_pos (by omega)]
  rw [hscan]
  simp [mkBindingResponse, xor_mask_cancel]

/-- C3 witness: spec scenario 6 — address 192.168.1.1 XOR cookie parses
back to "192.168.1.1" with the caller's local port 9000. -/
theorem stun_parse_roundtrip_witness :
    performSTUNParse (mkBindingResponse 192 168 1 1 0x30 0x39) 32 9000
      = some { IP := "192.168.1.1", Port := 9000 } := by
  rw [stun_parse_roundtrip 192 168 1 1 0x30 0x39 9000
    (by decide) (by decide) (by decide) (by decide)]
  rfl

/-- A 29-byte reply: the first 29 bytes of the synthetic response for
192.168.1.1; the rest of the 1024-byte receive buffer stays zero. -/
def shortReply : Nat → Nat := fun i =>
  if i < 29 then mkBindingResponse 192 168 1 1 0x30 0x39 i else 0

/-- C10: the scan guard `i < n-8` only protects reads up to `i+8`, yet the
code reads `i+9 .. i+11`.  On a 29-byte reply with the attribute header at
index 20 the scan accepts `i = 20` and the parse reads indices 29, 30, 31
— beyond the `n = 29` bytes received — so it returns a candidate built
from stale buffer bytes (`192.18.164.66` instead of `192.168.1.1`). -/
theorem stun_parse_reads_past_n :
    scanXMappedAddr shortReply (29 - 8) 20 = some 20 ∧
    ¬ 20 + 11 < 29 ∧
    performSTUNParse shortReply 29 9000
      = some { IP := "192.18.164.66", Port := 9000 } := by
  refine ⟨by decide, by decide, ?_⟩
  decide

/-! ## Peer controller (pkg/p2pquic/p2pquic.go)

The controller state keeps the fields of `Peer` that the claims are
about: `udpConn` and `quicListener`, as optional handles identified by a
number.  `net.ListenUDP` is modelled by passing in the fresh handle the
operating system would return; the world of still-open OS handles is a
`NetWorld` threaded through `Close`.  Only the success paths of the
socket-creating operations are modelled (a bind failure returns early in
the source and creates nothing). -/

/-- `Config` from pkg/p2pquic/types.go. -/
structure Config where
  PeerID : String
  LocalPort : Int
  SignalingURL : String
  EnableSTUN : Bool
deriving DecidableEq, Repr

/-- `NewPeer`: rejects an empty peer id, defaults `LocalPort` 0 to 9000
and an empty `SignalingURL` to http://localhost:8080, and returns the
stored configuration.  No validation of the port range appears in the
source. -/
def NewPeer (config : Config) : Except String Config :=
  if config.PeerID = "" then .error "peer ID is required"
  else
    let c1 : Config :=
      if config.LocalPort = 0 then { config with LocalPort := 9000 } else config
    let c2 : Config :=
      if c1.SignalingURL = "" then { c1 with SignalingURL := "http://localhost:8080" }
      else c1
    .ok c2

/-- The handle-holding fields of `Peer`. -/
structure PeerState where
  udpConn : Option Nat
  quicListener : Option Nat
deriving DecidableEq, Repr

/-- `Peer.Listen` (success path): binds a UDP socket unconditionally —
the source assigns `p.udpConn, err = net.ListenUDP(...)` without checking
whether a socket already exists — then starts the QUIC listener on it. -/
def Peer.Listen (p : PeerState) (fresh : Nat) : PeerState :=
  { p with udpConn := some fresh, quicListener := some fresh }

/-- The socket-creating step of `Peer.Connect` (lines 170–181): creates a
UDP socket only `if p.udpConn == nil`. -/
def Peer.connectSocket (p : PeerState) (fresh : Nat) : PeerState :=
  match p.udpConn with
  | some _ => p
  | none => { p with udpConn := some fresh }

/-- The socket `Peer.holePunch` writes its bursts on: `p.udpConn`. -/
def Peer.punchSocket (p : PeerState) : Option Nat := p.udpConn

/-- The socket `Peer.ContinuousHolePunch` writes on: `p.udpConn`. -/
def Peer.continuousPunchSocket (p : PeerState) : Option Nat := p.udpConn

/-- The socket `Peer.connectQUIC` passes to `quic.Dial`: `p.udpConn`. -/
def Peer.dialSocket (p : PeerState) : Option Nat := p.udpConn

/-- Still-open OS handles. -/
structure NetWorld where
  openSocks : List Nat
  openListeners : List Nat
deriving DecidableEq, Repr

/-- `net.UDPConn.Close`: succeeds once, then returns the "use of closed
network connection" error on an already-closed socket. -/
def udpConnClose (w : NetWorld) (s : Nat) : NetWorld × Except String Unit :=
  if s ∈ w.openSocks then
    ({ w with openSocks := w.openSocks.filter (fun x => x ≠ s) }, .ok ())
  else (w, .error "use of closed network connection")

/-- `quic.Listener.Close` (its result is discarded by the source). -/
def listenerClose (w : NetWorld) (l : Nat) : NetWorld :=
  { w with openListeners := w.openListeners.filter (fun x => x ≠ l) }

/-- `Peer.Close`: closes the QUIC listener if any, then returns the
result of closing the UDP socket if any; the source never clears the two
fields, so a repeated call re-closes the same handles. -/
def Peer.Close (p : PeerState) (w : NetWorld) : NetWorld × Except String Unit :=
  let w1 := match p.quicListener with
    | some l => listenerClose w l
    | none => w
  match p.udpConn with
  | some s => udpConnClose w1 s
  | none => (w1, .ok ())

/-- The order in which `Peer.Close` closes its handles. -/
inductive CloseEvent where
  | listener (l : Nat)
  | socket (s : Nat)
deriving DecidableEq, Repr

/-- The close calls `Peer.Close` issues, in source order: the QUIC
listener first (if any), then the UDP socket (if any). -/
def Peer.CloseTrace (p : PeerState) : List CloseEvent :=
  (match p.quicListener with
    | some l => [CloseEvent.listener l]
    | none => []) ++
  (match p.udpConn with
    | some s => [CloseEvent.socket s]
    | none => [])

/-- C4 counterexample: with socket 7 already bound, `Listen` binds the
fresh socket 8 — a second socket — so not every operation after binding
keeps using the one bound socket. -/
theorem listen_rebinds_counterexample :
    (Peer.Listen { udpConn := some 7, quicListener := none } 8).udpConn = some 8 ∧
    (some 8 : Option Nat) ≠ some 7 := by
  decide

/-- C4 amended: once a socket is bound, burst punching, continuous
punching and dialing all use exactly that socket, and `Connect` creates
no second one; `Listen`, however, always binds a fresh socket, replacing
the bound one. -/
theorem single_socket_amended (p : PeerState) (s fresh : Nat)
    (h : p.udpConn = some s) :
    Peer.punchSocket p = some s ∧
    Peer.continuousPunchSocket p = some s ∧
    Peer.dialSocket p = some s ∧
    Peer.connectSocket p fresh = p ∧
    (Peer.Listen p fresh).udpConn = some fresh := by
  refine ⟨h, h, h, ?_, rfl⟩
  unfold Peer.connectSocket
  rw [h]

/-- C4 amended witness at a concrete bound controller. -/
theorem single_socket_amended_witness :
    Peer.punchSocket { udpConn := some 3, quicListener := none } = some 3 ∧
    Peer.continuousPunchSocket { udpConn := some 3, quicListener := none } = some 3 ∧
    Peer.dialSocket { udpConn := some 3, quicListener := none } = some 3 ∧
    Peer.connectSocket { udpConn := some 3, quicListener := none } 4
      = { udpConn := some 3, quicListener := none } ∧
    (Peer.Listen { udpConn := some 3, quicListener := none } 4).udpConn = some 4 :=
  single_socket_amended { udpConn := some 3, quicListener := none } 3 4 rfl

/-- C8 counterexample: with listener 1 and socket 0 bound and open, the
first `Close` succeeds but the second returns the already-closed error
instead of succeeding, because the source never clears the fields. -/
theorem close_second_call_errors :
    (Peer.Close { udpConn := some 0, quicListener := some 1 }
        { openSocks := [0], openListeners := [1] }).2 = .ok () ∧
    (Peer.Close { udpConn := some 0, quicListener := some 1 }
        (Peer.Close { udpConn := some 0, quicListener := some 1 }
          { openSocks := [0], openListeners := [1] }).1).2
      = .error "use of closed network connection" :=
  ⟨rfl, rfl⟩

/-- C8 amended: `Close` is safe from any state and closes the transport
listener before the UDP socket; the first call on an open socket
succeeds and closes it, but a repeated call re-closes the socket and
returns the already-closed error (it only succeeds again when no socket
was ever bound). -/
theorem close_amended (p : PeerState) (w : NetWorld) (s : Nat)
    (hs : p.udpConn = some s) (hopen : s ∈ w.openSocks) :
    (∀ l, p.quicListener = some l →
      Peer.CloseTrace p = [CloseEvent.listener l, CloseEvent.socket s]) ∧
    (p.quicListener = none → Peer.CloseTrace p = [CloseEvent.socket s]) ∧
    (Peer.Close p w).2 = .ok () ∧
    s ∉ (Peer.Close p w).1.openSocks ∧
    (Peer.Close p (Peer.Close p w).1).2
      = .error "use of closed network connection" := by
  obtain ⟨u, q⟩ := p
  dsimp only at hs
  subst hs
  have hnot : s ∉ (w.openSocks.filter (fun x => x ≠ s)) := by
    intro hin
    have := List.of_mem_filter hin
    simp at this
  cases q with
  | none =>
      refine ⟨?_, ?_, ?_, ?_, ?_⟩
      · intro l hl
        exact absurd hl (by simp)
      · intro _
        rfl
      · simp [Peer.Close, udpConnClose, hopen]
      · simp only [Peer.Close, udpConnClose, if_pos hopen]
        exact hnot
      · simp only [Peer.Close, udpConnClose, if_pos hopen]
        rw [if_neg hnot]
  | some l =>
      have hopen' : s ∈ (listenerClose w l).openSocks := hopen
      refine ⟨?_, ?_, ?_, ?_, ?_⟩
      · intro l' hl'
        cases hl'
        rfl
      · intro hl
        exact absurd hl (by simp)
      · simp only [Peer.Close, udpConnClose, if_pos hopen']
      · simp only [Peer.Close, udpConnClose, if_pos hopen']
        exact hnot
      · simp only [Peer.Close, udpConnClose, if_pos hopen']
        have hnot2 : s ∉ (listenerClose { listenerClose w l with
            openSocks := (listenerClose w l).openSocks.filter (fun x => x ≠ s) } l).openSocks :=
          hnot
        rw [if_neg hnot2]

/-- C8 amended witness at a concrete bound-and-open controller. -/
theorem close_amended_witness :
    (Peer.Close { udpConn := some 0, quicListener := some 1 }
        { openSocks := [0], openListeners := [1] }).2 = .ok () ∧
    Peer.CloseTrace { udpConn := some 0, quicListener := some 1 }
      = [CloseEvent.listener 1, CloseEvent.socket 0] := by
  have h := close_amended { udpConn := some 0, quicListener := some 1 }
    { openSocks := [0], openListeners := [1] } 0 rfl (by decide)
  exact ⟨h.2.2.1, h.1 1 rfl⟩

/-- C9 counterexample: the port 70000 lies outside [1, 65535], yet
construction succeeds and stores it unchanged — no port validation
exists in `NewPeer`. -/
theorem newpeer_no_port_validation :
    NewPeer { PeerID := "a", LocalPort := 70000, SignalingURL := "u",
              EnableSTUN := false }
      = .ok { PeerID := "a", LocalPort := 70000, SignalingURL := "u",
              EnableSTUN := false } ∧
    ¬ (70000 : Int) ≤ 65535 := by
  constructor
  · rfl
  · decide

/-- C9 amended: construction fails exactly when the peer id is empty;
otherwise it succeeds (the port is never validated), replacing a zero
port by 9000 and an empty registry URL by http://localhost:8080, and as
a pure function performs no I/O. -/
theorem newpeer_amended (c : Config) :
    (NewPeer c = .error "peer ID is required" ↔ c.PeerID = "") ∧
    (c.PeerID ≠ "" → NewPeer c = .ok { c with
        LocalPort := if c.LocalPort = 0 then 9000 else c.LocalPort,
        SignalingURL := if c.SignalingURL = "" then "http://localhost:8080"
          else c.SignalingURL }) := by
  constructor
  · constructor
    · intro h
      by_cases hid : c.PeerID = ""
      · exact hid
      · unfold NewPeer at h
        rw [if_neg hid] at h
        exact absurd h (by simp)
    · intro h
      unfold NewPeer
      rw [if_pos h]
  · intro hid
    unfold NewPeer
    rw [if_neg hid]
    by_cases hp : c.LocalPort = 0 <;> by_cases hu : c.SignalingURL = "" <;>
      simp [hp, hu]

/-- C9 amended witness: a config with empty port and URL gets the
defaults 9000 and http://localhost:8080. -/
theorem newpeer_amended_witness :
    NewPeer { PeerID := "a", LocalPort := 0, SignalingURL := "", EnableSTUN := true } = .ok { PeerID := "a", LocalPort := 9000, SignalingURL := "http://localhost:8080", EnableSTUN := true } := by
  have h := (newpeer_amended { PeerID := "a", LocalPort := 0, SignalingURL := "", EnableSTUN := true }).2 (by decide)
  simpa using h

/-! ## Hole-punch engine and connection establisher

`net.ResolveUDPAddr` is an oracle `resolve : String → Option String` on
the formatted `IP:Port` string, and `quic.Dial` an oracle
`dial : String → Option Nat` on the resolved endpoint returning a
session handle.  Both loops are embedded by structural recursion over
the candidate list; besides the result each returns what it put on the
wire (datagrams sent, candidates attempted), so that ordering and
counting claims can be stated. -/

/-- `fmt.Sprintf("%s:%d", candidate.IP, candidate.Port)`. -/
def candidateAddr (c : Candidate) : String :=
  c.IP ++ ":" ++ toString c.Port

/-- `Peer.holePunch`: per candidate, resolve (a failure logs and
continues with the next candidate) and send five `"PUNCH"` datagrams
(send errors are only logged).  Result: (datagrams sent as
(endpoint, payload) pairs, returned error).  The source's only return
statement is `return nil`. -/
def Peer.holePunch (resolve : String → Option String) :
    List Candidate → List (String × String) × Option String
  | [] => ([], none)
  | candidate :: rest =>
      let tail := Peer.holePunch resolve rest
      match resolve (candidateAddr candidate) with
      | none => tail
      | some addr => (List.replicate 5 (addr, "PUNCH") ++ tail.1, tail.2)

/-- `Peer.connectQUIC`: try candidates in order; resolve failure or dial
failure logs and continues; the first successful dial returns
immediately; an exhausted list returns the aggregated error.  Result:
(addresses attempted in order, outcome). -/
def Peer.connectQUIC (resolve : String → Option String)
    (dial : String → Option Nat) :
    List Candidate → List String × Except String Nat
  | [] => ([], .error "failed to connect to any candidate")
  | candidate :: rest =>
      let addr := candidateAddr candidate
      match resolve addr with
      | none =>
          let t := Peer.connectQUIC resolve dial rest
          (addr :: t.1, t.2)
      | some remoteAddr =>
          match dial remoteAddr with
          | none =>
              let t := Peer.connectQUIC resolve dial rest
              (addr :: t.1, t.2)
          | some conn => ([addr], .ok conn)

/-- A datagram or dial on the shared socket, in wire order. -/
inductive NetEvent where
  | punch (addr payload : String)
  | dialAttempt (addr : String)
deriving DecidableEq, Repr

/-- The network steps of `Peer.Connect` after the candidate list is in
hand (lines 183–194): run `holePunch` (aborting on its error, which is
always `nil`), sleep, then run `connectQUIC`; every punch datagram is on
the wire before the first dial. -/
def Peer.ConnectNet (resolve : String → Option String)
    (dial : String → Option Nat) (candidates : List Candidate) :
    List NetEvent × Except String Nat :=
  let hp := Peer.holePunch resolve candidates
  match hp.2 with
  | some e => (hp.1.map (fun sp => NetEvent.punch sp.1 sp.2),
      .error ("hole-punch failed: " ++ e))
  | none =>
      let cq := Peer.connectQUIC resolve dial candidates
      (hp.1.map (fun sp => NetEvent.punch sp.1 sp.2)
        ++ cq.1.map NetEvent.dialAttempt, cq.2)

theorem holePunch_no_error (resolve : String → Option String)
    (l : List Candidate) : (Peer.holePunch resolve l).2 = none := by
  induction l with
  | nil => rfl
  | cons c rest ih =>
      unfold Peer.holePunch
      cases resolve (candidateAddr c) <;> simpa

theorem holePunch_payloads (resolve : String → Option String)
    (l : List Candidate) :
    ∀ sp ∈ (Peer.holePunch resolve l).1, sp.2 = "PUNCH" := by
  induction l with
  | nil => intro sp h; exact absurd h (by simp [Peer.holePunch])
  | cons c rest ih =>
      intro sp h
      unfold Peer.holePunch at h
      cases hr : resolve (candidateAddr c) with
      | none => rw [hr] at h; exact ih sp h
      | some addr =>
          rw [hr] at h
          rcases List.mem_append.mp h with h1 | h2
          · have := List.eq_of_mem_replicate h1
            rw [this]
          · exact ih sp h2

theorem holePunch_count (resolve : String → Option String)
    (l : List Candidate)
    (hres : ∀ c ∈ l, (resolve (candidateAddr c)).isSome = true) :
    (Peer.holePunch resolve l).1.length = 5 * l.length := by
  induction l with
  | nil => rfl
  | cons c rest ih =>
      have hc := hres c (by simp)
      have hrest : ∀ c' ∈ rest, (resolve (candidateAddr c')).isSome = true :=
        fun c' h' => hres c' (by simp [h'])
      unfold Peer.holePunch
      cases hr : resolve (candidateAddr c) with
      | none => rw [hr] at hc; exact absurd hc (by simp)
      | some addr =>
          simp only [List.length_append, List.length_replicate, List.length_cons,
            ih hrest]
          ring

/-- C5: when every candidate resolves, the burst punch puts exactly
`5 · N` datagrams, all with payload "PUNCH", on the wire, and inside
`Connect` all of them precede the first transport dial; a candidate that
fails to resolve is skipped without aborting the bursts to the remaining
candidates, and the burst phase never returns an error. -/
theorem burst_punch_behavior (resolve : String → Option String)
    (dial : String → Option Nat) (candidates : List Candidate)
    (hres : ∀ c ∈ candidates, (resolve (candidateAddr c)).isSome = true) :
    (Peer.holePunch resolve candidates).1.length = 5 * candidates.length ∧
    (∀ sp ∈ (Peer.holePunch resolve candidates).1, sp.2 = "PUNCH") ∧
    (∀ l : List Candidate, (Peer.holePunch resolve l).2 = none) ∧
    (∀ c rest, resolve (candidateAddr c) = none →
      Peer.holePunch resolve (c :: rest) = Peer.holePunch resolve rest) ∧
    (Peer.ConnectNet resolve dial candidates).1.take (5 * candidates.length)
      = (Peer.holePunch resolve candidates).1.map
          (fun sp => NetEvent.punch sp.1 sp.2) := by
  refine ⟨holePunch_count resolve candidates hres,
    holePunch_payloads resolve candidates, holePunch_no_error resolve, ?_, ?_⟩
  · intro c rest hr
    simp only [Peer.holePunch, hr]
  · unfold Peer.ConnectNet
    dsimp only
    rw [holePunch_no_error resolve candidates]
    dsimp only
    rw [List.take_append_of_le_length (by
      simp [holePunch_count resolve candidates hres])]
    exact List.take_of_length_le (by
      simp [holePunch_count resolve candidates hres])

/-- C5 witness: two resolvable candidates yield ten "PUNCH" datagrams
and no error. -/
theorem burst_punch_behavior_witness :
    (Peer.holePunch some [⟨"10.0.0.1", 9000⟩, ⟨"10.0.0.2", 9001⟩]).1.length = 5 * 2 ∧
    (Peer.holePunch some [⟨"10.0.0.1", 9000⟩, ⟨"10.0.0.2", 9001⟩]).2 = none := by
  have h := burst_punch_behavior some (fun _ => none)
    [⟨"10.0.0.1", 9000⟩, ⟨"10.0.0.2", 9001⟩] (by intro c hc; rfl)
  exact ⟨h.1, h.2.2.1 _⟩

/-- Outcome of one candidate attempt: resolve, then dial the resolved
endpoint; `none` covers resolve failure, dial failure and handshake
failure. -/
def attemptOutcome (resolve : String → Option String)
    (dial : String → Option Nat) (c : Candidate) : Option Nat :=
  (resolve (candidateAddr c)).bind dial

theorem connectQUIC_cons_resolve_fail (resolve : String → Option String)
    (dial : String → Option Nat) (c : Candidate) (rest : List Candidate)
    (hr : resolve (candidateAddr c) = none) :
    Peer.connectQUIC resolve dial (c :: rest)
      = (candidateAddr c :: (Peer.connectQUIC resolve dial rest).1,
         (Peer.connectQUIC resolve dial rest).2) := by
  simp only [Peer.connectQUIC, hr]

theorem connectQUIC_cons_dial_fail (resolve : String → Option String)
    (dial : String → Option Nat) (c : Candidate) (rest : List Candidate)
    (addr : String) (hr : resolve (candidateAddr c) = some addr)
    (hd : dial addr = none) :
    Peer.connectQUIC resolve dial (c :: rest)
      = (candidateAddr c :: (Peer.connectQUIC resolve dial rest).1,
         (Peer.connectQUIC resolve dial rest).2) := by
  simp only [Peer.connectQUIC, hr, hd]

theorem connectQUIC_cons_success (resolve : String → Option String)
    (dial : String → Option Nat) (c : Candidate) (rest : List Candidate)
    (addr : String) (conn : Nat) (hr : resolve (candidateAddr c) = some addr)
    (hd : dial addr = some conn) :
    Peer.connectQUIC resolve dial (c :: rest) = ([candidateAddr c], .ok conn) := by
  simp only [Peer.connectQUIC, hr, hd]

theorem connectQUIC_error_iff (resolve : String → Option String)
    (dial : String → Option Nat) (l : List Candidate) :
    (Peer.connectQUIC resolve dial l).2
        = .error "failed to connect to any candidate"
      ↔ ∀ c ∈ l, attemptOutcome resolve dial c = none := by
  induction l with
  | nil => simp [Peer.connectQUIC]
  | cons c rest ih =>
      cases hr : resolve (candidateAddr c) with
      | none =>
          rw [connectQUIC_cons_resolve_fail resolve dial c rest hr]
          constructor
          · intro h c' hc'
            rcases List.mem_cons.mp hc' with h1 | h1
            · rw [h1]; simp [attemptOutcome, hr]
            · exact ih.mp h c' h1
          · intro h
            exact ih.mpr (fun c' hc' => h c' (List.mem_cons_of_mem _ hc'))
      | some addr =>
          cases hd : dial addr with
          | none =>
              rw [connectQUIC_cons_dial_fail resolve dial c rest addr hr hd]
              constructor
              · intro h c' hc'
                rcases List.mem_cons.mp hc' with h1 | h1
                · rw [h1]; simp [attemptOutcome, hr, hd]
                · exact ih.mp h c' h1
              · intro h
                exact ih.mpr (fun c' hc' => h c' (List.mem_cons_of_mem _ hc'))
          | some conn =>
              rw [connectQUIC_cons_success resolve dial c rest addr conn hr hd]
              constructor
              · intro h
                exact absurd h (by simp)
              · intro h
                have hh := h c (List.mem_cons_self c rest)
                simp [attemptOutcome, hr, hd] at hh

theorem connectQUIC_first_success (resolve : String → Option String)
    (dial : String → Option Nat) (c : Candidate) (conn : Nat) :
    ∀ pre post, (∀ c' ∈ pre, attemptOutcome resolve dial c' = none) →
    attemptOutcome resolve dial c = some conn →
    Peer.connectQUIC resolve dial (pre ++ c :: post)
      = (pre.map candidateAddr ++ [candidateAddr c], .ok conn) := by
  intro pre
  induction pre with
  | nil =>
      intro post _ hc
      obtain ⟨addr, hr, hd⟩ : ∃ addr, resolve (candidateAddr c) = some addr ∧
          dial addr = some conn := by
        unfold attemptOutcome at hc
        cases hres : resolve (candidateAddr c) with
        | none => rw [hres] at hc; exact absurd hc (by simp)
        | some a =>
            rw [hres] at hc
            simp only [Option.some_bind] at hc
            exact ⟨a, rfl, hc⟩
      simp only [List.nil_append, List.map_nil]
      exact connectQUIC_cons_success resolve dial c post addr conn hr hd
  | cons p ps ih =>
      intro post hpre hc
      have hp := hpre p (List.mem_cons_self p ps)
      have hps : ∀ c' ∈ ps, attemptOutcome resolve dial c' = none :=
        fun c' h' => hpre c' (List.mem_cons_of_mem _ h')
      have hrec := ih post hps hc
      have step : Peer.connectQUIC resolve dial (p :: (ps ++ c :: post))
          = (candidateAddr p :: (Peer.connectQUIC resolve dial (ps ++ c :: post)).1,
             (Peer.connectQUIC resolve dial (ps ++ c :: post)).2) := by
        cases hr : resolve (candidateAddr p) with
        | none => exact connectQUIC_cons_resolve_fail resolve dial p _ hr
        | some addr =>
            have hd : dial addr = none := by
              unfold attemptOutcome at hp
              rw [hr] at hp
              simpa using hp
            exact connectQUIC_cons_dial_fail resolve dial p _ addr hr hd
      rw [List.cons_append, step, hrec]
      simp

theorem connectQUIC_attempted_in_order (resolve : String → Option String)
    (dial : String → Option Nat) (l : List Candidate) :
    ∃ k, (Peer.connectQUIC resolve dial l).1 = (l.map candidateAddr).take k := by
  induction l with
  | nil => exact ⟨0, rfl⟩
  | cons c rest ih =>
      obtain ⟨k, hk⟩ := ih
      cases hr : resolve (candidateAddr c) with
      | none =>
          refine ⟨k + 1, ?_⟩
          rw [connectQUIC_cons_resolve_fail resolve dial c rest hr]
          simp only [List.map_cons, List.take_succ_cons]
          rw [hk]
      | some addr =>
          cases hd : dial addr with
          | none =>
              refine ⟨k + 1, ?_⟩
              rw [connectQUIC_cons_dial_fail resolve dial c rest addr hr hd]
              simp only [List.map_cons, List.take_succ_cons]
              rw [hk]
          | some conn =>
              refine ⟨1, ?_⟩
              rw [connectQUIC_cons_success resolve dial c rest addr conn hr hd]
              simp

/-- C6: the establisher tries candidates in list order, each at most
once (the attempted addresses are always an order-preserving initial
segment of the candidate list); the first successful candidate's
session is returned immediately and nothing after it is attempted,
whatever follows; and the single "no route" error is returned exactly
when every candidate fails to resolve, dial or handshake. -/
theorem establisher_first_success (resolve : String → Option String)
    (dial : String → Option Nat) (candidates : List Candidate) :
    (∃ k, (Peer.connectQUIC resolve dial candidates).1
        = (candidates.map candidateAddr).take k) ∧
    ((Peer.connectQUIC resolve dial candidates).2
        = .error "failed to connect to any candidate"
      ↔ ∀ c ∈ candidates, attemptOutcome resolve dial c = none) ∧
    (∀ pre c post conn, candidates = pre ++ c :: post →
      (∀ c' ∈ pre, attemptOutcome resolve dial c' = none) →
      attemptOutcome resolve dial c = some conn →
      Peer.connectQUIC resolve dial candidates
        = (pre.map candidateAddr ++ [candidateAddr c], .ok conn)) := by
  refine ⟨connectQUIC_attempted_in_order resolve dial candidates,
    connectQUIC_error_iff resolve dial candidates, ?_⟩
  intro pre c post conn hsplit hpre hc
  rw [hsplit]
  exact connectQUIC_first_success resolve dial c conn pre post hpre hc

/-- C6 witness: with candidate 2 of 3 the only dialable one, the
establisher returns its session after attempting exactly candidates 1
and 2, in order. -/
theorem establisher_first_success_witness :
    Peer.connectQUIC some (fun a => if a = "10.0.0.2:9000" then some 42 else none) [⟨"10.0.0.1", 9000⟩, ⟨"10.0.0.2", 9000⟩, ⟨"10.0.0.3", 9000⟩] = (["10.0.0.1:9000", "10.0.0.2:9000"], .ok 42) := by
  have h := (establisher_first_success some (fun a => if a = "10.0.0.2:9000" then some 42 else none) [⟨"10.0.0.1", 9000⟩, ⟨"10.0.0.2", 9000⟩, ⟨"10.0.0.3", 9000⟩]).2.2 [⟨"10.0.0.1", 9000⟩] ⟨"10.0.0.2", 9000⟩ [⟨"10.0.0.3", 9000⟩] 42 rfl (by decide) (by decide)
  simpa using h

/-! ## Candidate discovery (Peer.DiscoverCandidates) -/

/-- `Peer.DiscoverCandidates`: when STUN is enabled and the probe
returned a candidate, append it first; then append the local
candidates; always return a nil error.  The probe outcome
(`discoverPublicIP`) and the interface enumeration
(`getLocalCandidates`) are oracles. -/
def Peer.DiscoverCandidates (enableSTUN : Bool)
    (stunResult : Option Candidate) (localCands : List Candidate) :
    List Candidate × Option String :=
  let candidates : List Candidate := []
  let candidates :=
    if enableSTUN then
      match stunResult with
      | some stunCand => candidates ++ [stunCand]
      | none => candidates
    else candidates
  let candidates := candidates ++ localCands
  (candidates, none)

/-- C7: discovery returns the reflexive candidate (when the probe is
enabled and succeeds) followed by the local candidates in that order,
returns the local candidates alone when the probe fails, and never
returns an error: a failing probe never makes discovery fail. -/
theorem discover_candidates_order (enableSTUN : Bool)
    (stunResult : Option Candidate) (localCands : List Candidate) :
    (∀ c, enableSTUN = true → stunResult = some c →
      Peer.DiscoverCandidates enableSTUN stunResult localCands
        = (c :: localCands, none)) ∧
    (stunResult = none →
      Peer.DiscoverCandidates enableSTUN stunResult localCands
        = (localCands, none)) ∧
    (Peer.DiscoverCandidates enableSTUN stunResult localCands).2 = none := by
  refine ⟨?_, ?_, ?_⟩
  · intro c he hs
    simp [Peer.DiscoverCandidates, he, hs]
  · intro hs
    cases enableSTUN <;> simp [Peer.DiscoverCandidates, hs]
  · cases enableSTUN <;> cases stunResult <;> simp [Peer.DiscoverCandidates]

/-- C7 witness: an enabled, successful probe puts the reflexive
candidate first; the same call shape with a failed probe yields the
locals alone. -/
theorem discover_candidates_order_witness :
    Peer.DiscoverCandidates true (some ⟨"1.2.3.4", 9000⟩) [⟨"10.0.0.1", 9000⟩] = ([⟨"1.2.3.4", 9000⟩, ⟨"10.0.0.1", 9000⟩], none) ∧
    Peer.DiscoverCandidates true none [⟨"10.0.0.1", 9000⟩] = ([⟨"10.0.0.1", 9000⟩], none) :=
  ⟨(discover_candidates_order true (some ⟨"1.2.3.4", 9000⟩) [⟨"10.0.0.1", 9000⟩]).1 ⟨"1.2.3.4", 9000⟩ rfl rfl,
   (discover_candidates_order true none [⟨"10.0.0.1", 9000⟩]).2.1 rfl⟩

end P2PQuic
